import Mathlib

/-!
Shallow embedding of the decoration-set core (`src/view/src/decoration.ts`) and
proofs about it.  Positions and biases are JavaScript numbers used as integers,
so they are modelled as `Int`; decoration counts (`size`) are modelled as `Nat`.
Loops and the mutually recursive update algorithm are modelled with an explicit
fuel parameter: every function of the update cluster consumes one unit of fuel
per call and returns `none` when the fuel is exhausted, so each equation
`... = some r` states what the source computes when it terminates.
-/

namespace DecoView

/-- `DecorationRangeSpec` from the source: options of a range decoration.
`attributes` is `Option` to distinguish an absent field from an empty object
(JavaScript truthiness of `{}` is `true`). -/
structure DecorationRangeSpec where
  inclusiveStart : Bool := false
  inclusiveEnd : Bool := false
  attributes : Option (List (String × String)) := none
  lineAttributes : Option (List (String × String)) := none
  tagName : Option String := none
  collapsed : Bool := false
deriving DecidableEq

/-- `DecorationPointSpec` from the source. -/
structure DecorationPointSpec where
  side : Option Int := none
  lineAttributes : Option (List (String × String)) := none
deriving DecidableEq

/-- The union type `DecorationSpec = DecorationRangeSpec | DecorationPointSpec`. -/
inductive DecorationSpec where
  | range (s : DecorationRangeSpec)
  | point (s : DecorationPointSpec)
deriving DecidableEq

/-- JavaScript truthiness of an optional string (`""` and `undefined` are falsy). -/
def strTruthy : Option String → Bool
  | none => false
  | some s => s ≠ ""

/-- `BIG_BIAS = 2e9`. -/
def BIG_BIAS : Int := 2000000000

/-- The two subclasses of `DecorationDesc`: `RangeDesc` and `PointDesc`,
each holding its spec.  The derived fields (`bias`, `endBias`, `affectsSpans`)
are computed by the functions below exactly as the constructors compute them. -/
inductive DecorationDesc where
  | rangeDesc (spec : DecorationRangeSpec)
  | pointDesc (spec : DecorationPointSpec)
deriving DecidableEq

/-- `this.bias`: for ranges `inclusiveStart ? -BIG_BIAS : BIG_BIAS`,
for points `spec.side || 0`. -/
def DecorationDesc.bias : DecorationDesc → Int
  | .rangeDesc spec => if spec.inclusiveStart then -BIG_BIAS else BIG_BIAS
  | .pointDesc spec => spec.side.getD 0

/-- `RangeDesc.endBias`: `inclusiveEnd ? BIG_BIAS : -BIG_BIAS` (points have none). -/
def DecorationDesc.endBias : DecorationDesc → Int
  | .rangeDesc spec => if spec.inclusiveEnd then BIG_BIAS else -BIG_BIAS
  | .pointDesc _ => 0

/-- `RangeDesc.affectsSpans = !!(spec.attributes || spec.tagName || spec.collapsed)`. -/
def DecorationDesc.affectsSpans : DecorationDesc → Bool
  | .rangeDesc spec => spec.attributes.isSome || strTruthy spec.tagName || spec.collapsed
  | .pointDesc _ => false

/-- The `spec` getter. -/
def DecorationDesc.spec : DecorationDesc → DecorationSpec
  | .rangeDesc s => .range s
  | .pointDesc s => .point s

/-- A `Decoration` is the triple `(from, to, desc)`; `from`/`to` are renamed
`fromPos`/`toPos` because `from` is reserved in Lean. -/
structure Decoration where
  fromPos : Int
  toPos : Int
  desc : DecorationDesc
deriving DecidableEq

instance : Inhabited Decoration := ⟨⟨0, 0, .pointDesc {}⟩⟩

/-- An external change: the core only consumes `from`, `to`, the replacement
length, and the `mapPos(pos, assoc)` operation (the change model lives in the
state module, outside this subsystem). -/
structure Change where
  cFrom : Int
  cTo : Int
  textLength : Int
  mapPos : Int → Int → Int

/-- `mapPos(pos, changes, assoc)`: fold the change list left to right. -/
def mapPos (pos : Int) (changes : List Change) (assoc : Int) : Int :=
  changes.foldl (fun p c => c.mapPos p assoc) pos

/-- `Decoration.move(offset)`: shift both endpoints (the source returns `this`
when `offset` is falsy, which is value-equal). -/
def Decoration.move (d : Decoration) (offset : Int) : Decoration :=
  if offset = 0 then d else ⟨d.fromPos + offset, d.toPos + offset, d.desc⟩

/-- `DecorationDesc.map`: `RangeDesc.map` maps both endpoints with the stored
biases and drops the decoration unless `from < to`; `PointDesc.map` maps the
position and always produces a point. -/
def DecorationDesc.map (desc : DecorationDesc) (deco : Decoration)
    (changes : List Change) : Option Decoration :=
  match desc with
  | .rangeDesc spec =>
    let f := mapPos deco.fromPos changes (DecorationDesc.rangeDesc spec).bias
    let t := mapPos deco.toPos changes (DecorationDesc.rangeDesc spec).endBias
    if f < t then some ⟨f, t, .rangeDesc spec⟩ else none
  | .pointDesc spec =>
    let pos := mapPos deco.fromPos changes (DecorationDesc.pointDesc spec).bias
    some ⟨pos, pos, .pointDesc spec⟩

/-- `Decoration.prototype.map`. -/
def Decoration.map (d : Decoration) (changes : List Change) : Option Decoration :=
  d.desc.map d changes

/-- `Decoration.prototype.spec`. -/
def Decoration.spec (d : Decoration) : DecorationSpec := d.desc.spec

/-- `Decoration.prototype.heapPos` (`get heapPos() { return this.to }`). -/
def Decoration.heapPos (d : Decoration) : Int := d.toPos

/-- `Decoration.range(from, to, spec)`: throws a `RangeError` when `from >= to`. -/
def Decoration.range (f t : Int) (spec : DecorationRangeSpec) :
    Except String Decoration :=
  if f ≥ t then .error "Range decorations may not be empty"
  else .ok ⟨f, t, .rangeDesc spec⟩

/-- `Decoration.point(pos, spec)`: total, never fails. -/
def Decoration.point (pos : Int) (spec : DecorationPointSpec) : Decoration :=
  ⟨pos, pos, .pointDesc spec⟩

/-- JavaScript `x || y` on numbers, as used by the two comparators. -/
def jsOr (x y : Int) : Int := if x = 0 then y else x

/-- `byPos(a, b) = a.from - b.from || a.desc.bias - b.desc.bias`. -/
def byPos (a b : Decoration) : Int :=
  jsOr (a.fromPos - b.fromPos) (a.desc.bias - b.desc.bias)

/-- Helper for `insertSorted`: walk the reversed list past entries with
`byPos(entry, deco) >= 0`, exactly like the backwards index walk in the source. -/
def insertSortedRev (deco : Decoration) : List Decoration → List Decoration
  | [] => [deco]
  | x :: xs => if byPos x deco ≥ 0 then x :: insertSortedRev deco xs else deco :: x :: xs

/-- `insertSorted(target, deco)`: insert after the last entry comparing below `deco`. -/
def insertSorted (target : List Decoration) (deco : Decoration) : List Decoration :=
  (insertSortedRev deco target.reverse).reverse

/-- Stable merge of two sorted decoration lists (fuelled so that it reduces
definitionally; the fuel is the total length, which always suffices). -/
def mergeByPos : Nat → List Decoration → List Decoration → List Decoration
  | 0, l, r => l ++ r
  | _ + 1, [], r => r
  | _ + 1, a :: l, [] => a :: l
  | fuel + 1, a :: l, b :: r =>
    if byPos a b ≤ 0 then a :: mergeByPos fuel l (b :: r)
    else b :: mergeByPos fuel (a :: l) r

/-- Stable merge sort by `byPos` (fuelled on the list length). -/
def msortByPos : Nat → List Decoration → List Decoration
  | 0, l => l
  | fuel + 1, l =>
    if l.length ≤ 1 then l
    else
      let n := l.length / 2
      mergeByPos l.length (msortByPos fuel (l.take n)) (msortByPos fuel (l.drop n))

/-- `array.slice().sort(byPos)` (a stable sort by the `byPos` comparator). -/
def sortByPos (l : List Decoration) : List Decoration :=
  msortByPos l.length l

/-- `BASE_NODE_SIZE = 32`. -/
def BASE_NODE_SIZE : Nat := 32

/-- The decoration-set tree node: `(length, size, local, children)`.
`local` is renamed `locals` because `local` is reserved in Lean. -/
inductive DecorationSet where
  | node (length : Int) (size : Nat) (locals : List Decoration)
      (children : List DecorationSet)

def DecorationSet.length : DecorationSet → Int
  | .node l _ _ _ => l

def DecorationSet.size : DecorationSet → Nat
  | .node _ s _ _ => s

def DecorationSet.locals : DecorationSet → List Decoration
  | .node _ _ l _ => l

def DecorationSet.children : DecorationSet → List DecorationSet
  | .node _ _ _ c => c

/-- `DecorationSet.empty`. -/
def DecorationSet.empty : DecorationSet := .node 0 0 [] []

instance : Inhabited DecorationSet := ⟨DecorationSet.empty⟩

/-- `DecorationSet.prototype.grow(length)`. -/
def DecorationSet.grow (s : DecorationSet) (length : Int) : DecorationSet :=
  .node (s.length + length) s.size s.locals s.children

/-- `DecorationSet.prototype.collect(target, offset)`: every decoration of the
subtree, translated by `offset` plus the cumulative child offsets, in tree
order.  Fuelled on the tree depth so that it reduces definitionally; any fuel
at least the depth gives the source's value. -/
def DecorationSet.collect : Nat → DecorationSet → Int → List Decoration
  | 0, _, _ => []
  | fuel + 1, .node _ _ locals children, offset =>
    locals.map (fun d => d.move offset) ++ go fuel children offset
where go (fuel : Nat) : List DecorationSet → Int → List Decoration
  | [], _ => []
  | c :: rest, off => DecorationSet.collect fuel c off ++ go fuel rest (off + c.length)

/-- A decoration filter `(from, to, spec) => boolean`. -/
def DecorationFilter := Int → Int → DecorationSpec → Bool

/-- `filterDecorations`: copy-on-write filter of a local list; `none` means the
source returned `null` (no decoration was dropped, the array is reused). -/
def filterDecorations (decorations : List Decoration)
    (filter : Option DecorationFilter) (filterFrom filterTo offset : Int) :
    Option (List Decoration) :=
  match filter with
  | none => none
  | some fn => go fn decorations [] false
where go (fn : DecorationFilter) : List Decoration → List Decoration → Bool →
    Option (List Decoration)
  | [], acc, dropped => if dropped then some acc.reverse else none
  | d :: rest, acc, dropped =>
    let f := d.fromPos + offset
    let t := d.toPos + offset
    if filterFrom > t || filterTo < f || fn f t d.spec then go fn rest (d :: acc) dropped
    else go fn rest acc true

/-- `collapseSet(children, local, add, start, offset, length)`: flatten a small
node into a leaf.  The source collects child `i` translated by `-off` (where
`off` is the child's start), sorts when the incoming local list was nonempty,
then appends the remaining additions translated by `-offset`.  (`add` here is
already the slice from `start` on; `fuel` only feeds `collect`.) -/
def collapseSet (fuel : Nat) (children : List DecorationSet) (locals : List Decoration)
    (add : List Decoration) (offset length : Int) : DecorationSet :=
  let wasEmpty := locals.isEmpty
  let collected := go children locals 0
  let sorted := if wasEmpty then collected else sortByPos collected
  let final := sorted ++ add.map (fun d => d.move (-offset))
  .node length final.length final []
where go : List DecorationSet → List Decoration → Int → List Decoration
  | [], acc, _ => acc
  | c :: rest, acc, off => go rest (acc ++ c.collect fuel (-off)) (off + c.length)

/-- The inner `while` loop of `updateInner` that distributes sorted additions
over one child: additions starting before `endPos` are consumed; those ending
past `endPos` are inserted into the (copy-on-write) local list, the rest are
grouped into `localDeco` for the recursive call. -/
def distribute (sLocals : List Decoration) (offset endPos : Int) :
    List Decoration → Option (List Decoration) → Option (List Decoration) →
    List Decoration × Option (List Decoration) × Option (List Decoration)
  | [], localOpt, localDeco => ([], localOpt, localDeco)
  | d :: rest, localOpt, localDeco =>
    if d.fromPos ≥ endPos then (d :: rest, localOpt, localDeco)
    else if d.toPos > endPos then
      distribute sLocals offset endPos rest
        (some (insertSorted (localOpt.getD sLocals) (d.move (-offset)))) localDeco
    else
      distribute sLocals offset endPos rest localOpt (some (localDeco.getD [] ++ [d]))

/-- The scan of the wrapper-join branch of `rebalanceChildren`: extend the run
of children to join while the total size stays within `childSize`.  Returns the
accumulated size, length and the number of children joined. -/
def joinScan : List DecorationSet → Nat → Int → Nat → Nat → Nat × Int × Nat
  | [], size, len, k, _ => (size, len, k)
  | next :: rest, size, len, k, childSize =>
    if size + next.size > childSize then (size, len, k)
    else joinScan rest (size + next.size) (len + next.length) (k + 1) childSize

/-- The type of the recursive `updateInner` callback threaded through the
helpers of the update algorithm. -/
def UpdateRec : Type :=
  DecorationSet → List Decoration → Option DecorationFilter → Int → Int → Int → Int →
    Option (DecorationSet × Bool)

/-- The `for` loop of `updateInner` over the child sets: apply the filter and
push grouped additions into each child.  `acc` is the list of processed
children, `anyChanged` whether any child object changed (the reference
comparison `newChild != child` of the source), `rem` the additions not yet
consumed. -/
def walkChildrenW (recu : UpdateRec) (sLocals : List Decoration)
    (filter : Option DecorationFilter) (filterFrom filterTo offset : Int) :
    List DecorationSet → Option (List Decoration) → List DecorationSet → Bool → Nat →
    Int → List Decoration →
    Option (Option (List Decoration) × List DecorationSet × Bool × Nat × Int ×
      List Decoration)
  | [], localOpt, acc, anyChanged, sizeAcc, pos, rem =>
    some (localOpt, acc, anyChanged, sizeAcc, pos, rem)
  | child :: rest, localOpt, acc, anyChanged, sizeAcc, pos, rem =>
    let endPos := pos + child.length
    let (rem', localOpt', localDeco) := distribute sLocals offset endPos rem localOpt none
    if localDeco.isSome ∨ (filter.isSome ∧ filterFrom ≤ endPos ∧ filterTo ≥ pos) then
      match recu child (localDeco.getD []) filter filterFrom filterTo pos child.length with
      | none => none
      | some (newChild, changed) =>
        walkChildrenW recu sLocals filter filterFrom filterTo offset rest localOpt'
          (acc ++ [newChild]) (anyChanged || changed) (sizeAcc + newChild.size) endPos rem'
    else
      walkChildrenW recu sLocals filter filterFrom filterTo offset rest localOpt'
        (acc ++ [child]) anyChanged (sizeAcc + child.size) endPos rem'

/-- `appendDecorations(local, children, decorations, start, offset, length, pos,
childSize)`: group the remaining additions into fresh child subtrees of at most
`childSize` decorations each; additions reaching past the intended child span
escape into the local list instead.  One fuel unit per chunk. -/
def appendW (recu : UpdateRec) : Nat → List Decoration → List DecorationSet →
    List Decoration → Int → Int → Int → Nat →
    Option (List Decoration × List DecorationSet)
  | 0, _, _, _, _, _, _, _ => none
  | fuel + 1, locals, children, rem, offset, length, pos, childSize =>
    match rem with
    | [] => some (locals, children)
    | _ :: _ =>
      let chunk := rem.take childSize
      let rest := rem.drop childSize
      let endPos := match rest with
        | [] => offset + length
        | d :: _ => d.fromPos
      let (locals', add) := chunk.foldl
        (fun (p : List Decoration × List Decoration) deco =>
          if deco.toPos > endPos then (insertSorted p.1 (deco.move (-offset)), p.2)
          else (p.1, p.2 ++ [deco]))
        (locals, [])
      if add.isEmpty then
        appendW recu fuel locals' children rest offset length pos childSize
      else
        match recu DecorationSet.empty add none 0 0 pos (endPos - pos) with
        | none => none
        | some (child, _) =>
          appendW recu fuel locals' (children ++ [child]) rest offset length endPos
            childSize

/-- The `for` loop of `rebalanceChildren`, as a zipper: `before` holds the
children to the left of index `i` (reversed), `after` the rest; `cur` is the
array the `local` variable currently points to, and `detached` records whether
the source has rebound `local` to the shared `noDecorations` array (after that
rebinding, later insertions are no longer visible to the caller, whose array
stays empty).  `upd` performs `joined.update(...)`; one fuel unit per loop
iteration. -/
def rebalanceLoopW (upd : DecorationSet → List Decoration → Option DecorationSet) :
    Nat → List Decoration → Bool → List DecorationSet → List DecorationSet → Int →
    Nat → Option (List Decoration × List DecorationSet)
  | 0, _, _, _, _, _, _ => none
  | fuel + 1, cur, detached, before, after, off, childSize =>
    match after with
    | [] => some ((if detached then [] else cur), before.reverse)
    | child :: rest =>
      if child.size = 0 ∧ (before.length ≠ 0 ∨ before.length + after.length = 1) then
        -- drop empty node, donating its length to the previous sibling
        match before with
        | [] => none  -- here the source would read children[-1]; not reachable below
        | b :: bs =>
          rebalanceLoopW upd fuel cur detached bs (b.grow child.length :: rest) off childSize
      else if child.size > childSize * 2 ∧ (child.locals.length : Int) < child.length / 2 then
        -- unwrap an overly big node (the source computes `child.length >> 1`)
        let cur' := child.locals.foldl (fun l d => insertSorted l (d.move off)) cur
        rebalanceLoopW upd fuel cur' detached before (child.children ++ rest) off childSize
      else if child.children.isEmpty &&
          (match rest with
           | [] => false
           | next :: _ =>
             decide (next.size + child.size ≤ BASE_NODE_SIZE) && next.children.isEmpty) then
        -- join two small leaf nodes; off moves past both, yet the loop
        -- re-examines the joined node at the same index
        match rest with
        | [] => none
        | next :: rest2 =>
          let joined := DecorationSet.node (child.length + next.length)
            (child.size + next.size)
            (child.locals ++ next.locals.map (fun d => d.move child.length)) []
          rebalanceLoopW upd fuel cur detached before (joined :: rest2)
            (off + child.length + next.length) childSize
      else
        -- join a run of small siblings into a wrapper node
        let scan :=
          if child.size < childSize / 2 then joinScan rest child.size child.length 1 childSize
          else (child.size, child.length, 1)
        let size := scan.1
        let len := scan.2.1
        let k := scan.2.2
        if k > 1 then
          let joined0 := DecorationSet.node len size [] (child :: rest.take (k - 1))
          let cap := fun d : Decoration =>
            decide (d.fromPos ≥ off) && decide (d.toPos ≤ off + len)
          let joinedLocals := (cur.filter cap).map (fun d => d.move (-off))
          let cur' := cur.filter (fun d => !cap d)
          let detached' := detached || (cur'.isEmpty && !joinedLocals.isEmpty)
          match (if joinedLocals.isEmpty then some joined0
                 else upd joined0 (sortByPos joinedLocals)) with
          | none => none
          | some joined =>
            -- children.splice(i, k, joined); i = joinTo: the loop resumes k
            -- positions further, so joined and the k-1 children after it are
            -- passed over without advancing off past the skipped ones
            let skipped := (rest.drop (k - 1)).take (k - 1)
            rebalanceLoopW upd fuel cur' detached' (skipped.reverse ++ joined :: before)
              ((rest.drop (k - 1)).drop (k - 1)) (off + len) childSize
        else
          rebalanceLoopW upd fuel cur detached (child :: before) rest (off + child.length)
            childSize

/-- `DecorationSet.prototype.update(decorations, filter, filterFrom, filterTo)`
expressed over the recursive callback: sort a copy of the additions, extend the
length to cover them, and run `updateInner` at offset 0. -/
def updateW (recu : UpdateRec) (s : DecorationSet) (decorations : List Decoration)
    (filter : Option DecorationFilter) (filterFrom filterTo : Int) :
    Option DecorationSet :=
  let maxLen := decorations.foldl (fun l d => max l d.toPos) s.length
  let sorted := if decorations.isEmpty then decorations else sortByPos decorations
  (recu s sorted filter filterFrom filterTo 0 maxLen).map (fun r => r.1)

/-- One level of `DecorationSet.prototype.updateInner(decorations, filter,
filterFrom, filterTo, offset, length)`: `recu` is the next-level recursive
call, `fuel` feeds the inner loops.  The boolean in the result records whether
the source would return a fresh object (`false` means it returned `this`). -/
def updateInnerStep (fuel : Nat) (recu : UpdateRec) : UpdateRec :=
  fun s decorations filter filterFrom filterTo offset length =>
    let localF := filterDecorations s.locals filter filterFrom filterTo offset
    match walkChildrenW recu s.locals filter filterFrom filterTo offset s.children
        localF [] false 0 offset decorations with
    | none => none
    | some (localOpt, acc, anyChanged, sizeAcc, pos, rem) =>
      -- if nothing was actually updated, return the existing object
      if localOpt.isNone && !anyChanged && rem.isEmpty then some (s, false)
      else
        let size := sizeAcc + (localOpt.getD s.locals).length + rem.length
        if size ≤ BASE_NODE_SIZE then
          some (collapseSet fuel (if anyChanged then acc else s.children)
            (localOpt.getD s.locals) rem offset length, true)
        else
          let childSize := max BASE_NODE_SIZE (size >>> 5)
          match (if rem.isEmpty then
                   some (localOpt, if anyChanged then some acc else none)
                 else
                   (appendW recu fuel (localOpt.getD s.locals)
                       (if anyChanged then acc else s.children) rem offset length pos
                       childSize).map
                     (fun r => (some r.1, some r.2))) with
          | none => none
          | some (localOpt2, childrenOpt2) =>
            match childrenOpt2 with
            | none => some (.node length size (localOpt2.getD s.locals) s.children, true)
            | some cs2 =>
              match rebalanceLoopW
                  (fun j decs => updateW recu j decs none 0 j.length) fuel
                  (localOpt2.getD s.locals) false [] cs2 0 childSize with
              | none => none
              | some (l3, cs3) => some (.node length size l3 cs3, true)

/-- The fuelled recursive `updateInner`. -/
def updateInner : Nat → UpdateRec
  | 0 => fun _ _ _ _ _ _ _ => none
  | fuel + 1 => updateInnerStep fuel (updateInner fuel)

/-- `DecorationSet.prototype.update` with explicit fuel. -/
def update (fuel : Nat) (s : DecorationSet) (decorations : List Decoration)
    (filter : Option DecorationFilter) (filterFrom filterTo : Int) :
    Option DecorationSet :=
  updateW (updateInner fuel) s decorations filter filterFrom filterTo

/-- `DecorationSet.of` on an array argument: an empty batch never reaches
`update` and the `empty` sentinel itself is returned. -/
def DecorationSet.of (fuel : Nat) (decorations : List Decoration) : Option DecorationSet :=
  if decorations.isEmpty then some DecorationSet.empty
  else update fuel DecorationSet.empty decorations none 0 DecorationSet.empty.length

/-- The `Heapable` interface: `{ heapPos: number; desc: DecorationDesc }`. -/
class Heapable (α : Type) where
  heapPos : α → Int
  desc : α → DecorationDesc

instance : Heapable Decoration := ⟨Decoration.heapPos, Decoration.desc⟩

/-- `compareHeapable(a, b) = a.heapPos - b.heapPos || a.desc.bias - b.desc.bias`. -/
def compareHeapable [Heapable α] (a b : α) : Int :=
  jsOr (Heapable.heapPos a - Heapable.heapPos b)
    ((Heapable.desc a).bias - (Heapable.desc b).bias)

/-- The sift-up loop of `addToHeap`.  Note the source computes the parent of
`index` as `index >> 1` (with children at `2*i+1` and `2*i+2`), so for even
indices this is not the tree parent.  Fuelled (the index strictly decreases, so
any fuel at least the start index suffices). -/
def siftUp [Heapable α] : Nat → List α → α → Nat → List α
  | 0, heap, _, _ => heap
  | fuel + 1, heap, elt, index =>
    if index = 0 then heap
    else
      let parentIndex := index / 2
      let parent := heap.getD parentIndex elt
      if compareHeapable elt parent ≥ 0 then heap
      else siftUp fuel ((heap.set index parent).set parentIndex elt) elt parentIndex

/-- `addToHeap(heap, elt)`: push then sift up. -/
def addToHeap [Heapable α] (heap : List α) (elt : α) : List α :=
  let heap' := heap ++ [elt]
  siftUp heap'.length heap' elt (heap'.length - 1)

/-- The sift-down loop of `takeFromHeap` (children of `i` at `2*i+1`, `2*i+2`;
the smaller child is chosen and swapped while the replacement does not compare
below it).  Fuelled (the index strictly increases towards the length). -/
def siftDown [Heapable α] : Nat → List α → α → Nat → List α
  | 0, heap, _, _ => heap
  | fuel + 1, heap, replacement, index =>
    let childIndex := 2 * index + 1
    if childIndex ≥ heap.length then heap
    else
      let child := heap.getD childIndex replacement
      let pick :=
        if childIndex + 1 < heap.length ∧
            compareHeapable child (heap.getD (childIndex + 1) replacement) ≥ 0 then
          (heap.getD (childIndex + 1) replacement, childIndex + 1)
        else (child, childIndex)
      if compareHeapable replacement pick.1 < 0 then heap
      else siftDown fuel ((heap.set pick.2 replacement).set index pick.1) replacement pick.2

/-- `takeFromHeap(heap)`: return the root, move the last element to the root and
sift it down.  `none` models the unguarded read of an empty array. -/
def takeFromHeap [Heapable α] (heap : List α) : Option (α × List α) :=
  match heap with
  | [] => none
  | elt :: _ =>
    let replacement := heap.getLastD elt
    let rest := heap.dropLast
    if rest.isEmpty then some (elt, [])
    else some (elt, siftDown rest.length (rest.set 0 replacement) replacement 0)

/-- Pop every element off the heap in order. -/
def popAll [Heapable α] : Nat → List α → List α
  | 0, _ => []
  | fuel + 1, heap =>
    match takeFromHeap heap with
    | none => []
    | some (e, h') => e :: popAll fuel h'

/-- Push every element of the list in order. -/
def pushAll [Heapable α] (heap : List α) (elts : List α) : List α :=
  elts.foldl addToHeap heap

/-- A stack entry of `DecorationSetIterator`: `index == -1` means the node's
locals have not been yielded yet, otherwise it indexes the child array. -/
structure IteratedSet where
  offset : Int
  index : Int
  set : DecorationSet

/-- A cursor into one node's local decorations.  `next` is the back-pointer to
the iterator (modelled by its stack) that is set exactly when the node has no
children. -/
structure LocalSet where
  offset : Int
  decorations : List Decoration
  index : Nat
  next : Option (List IteratedSet)

/-- `LocalSet.heapPos`: absolute start of the current decoration. -/
def LocalSet.heapPos (ls : LocalSet) : Int :=
  (ls.decorations.getD ls.index default).fromPos + ls.offset

/-- `LocalSet.desc` of the current decoration. -/
def LocalSet.desc (ls : LocalSet) : DecorationDesc :=
  (ls.decorations.getD ls.index default).desc

instance : Heapable LocalSet := ⟨LocalSet.heapPos, LocalSet.desc⟩

/-- `new DecorationSetIterator(set, offset)`: a one-frame stack. -/
def iterStart (s : DecorationSet) (offset : Int) : List IteratedSet :=
  [⟨offset, -1, s⟩]

/-- `DecorationSetIterator.prototype.next(skip)`.  The stack is kept topmost
first.  Children are bypassed exactly when `skip > child.length` (strict), with
`skip` reduced by the bypassed child's length; the back-pointer of a yielded
`LocalSet` is the iterator state when the node has no children.  Fuelled; one
unit per loop iteration. -/
def iterNext : Nat → Int → List IteratedSet → Option (Option LocalSet × List IteratedSet)
  | 0, _, _ => none
  | fuel + 1, skip, stack =>
    match stack with
    | [] => some (none, [])
    | top :: rest =>
      if top.index < 0 then
        let top' : IteratedSet := ⟨top.offset, 0, top.set⟩
        if top.set.locals.length > 0 then
          some (some ⟨top.offset, top.set.locals, 0,
              if top.set.children.length ≠ 0 then none else some (top' :: rest)⟩,
            top' :: rest)
        else iterNext fuel skip (top' :: rest)
      else if top.index = (top.set.children.length : Int) then
        iterNext fuel skip rest
      else
        let nextChild := top.set.children.getD top.index.toNat DecorationSet.empty
        let start := top.offset
        let top' : IteratedSet := ⟨top.offset + nextChild.length, top.index + 1, top.set⟩
        if skip > nextChild.length then
          iterNext fuel (skip - nextChild.length) (top' :: rest)
        else iterNext fuel skip (⟨start, -1, nextChild⟩ :: top' :: rest)

/-- The two kinds of heap entries of the spans builder. -/
inductive SpanItem where
  | localSet (ls : LocalSet)
  | deco (d : Decoration)

instance : Heapable SpanItem where
  heapPos
    | .localSet ls => ls.heapPos
    | .deco d => d.heapPos
  desc
    | .localSet ls => ls.desc
    | .deco d => d.desc

/-- An output span.  `from`/`to` are again renamed `fromPos`/`toPos`. -/
structure DecoratedRange where
  fromPos : Int
  toPos : Int
  tagName : Option String
  attrs : Option (List (String × String))
deriving DecidableEq

/-- JavaScript object-key lookup in an attribute map. -/
def lookupAttr (attrs : List (String × String)) (name : String) : Option String :=
  (attrs.find? (fun p => p.1 == name)).map (fun p => p.2)

/-- JavaScript `attrs[name] = value`: overwrite in place, else append. -/
def setAttr (attrs : List (String × String)) (name value : String) :
    List (String × String) :=
  if attrs.any (fun p => p.1 == name) then
    attrs.map (fun p => if p.1 == name then (name, value) else p)
  else attrs ++ [(name, value)]

/-- `DecoratedRange.build(from, to, ranges)`: overlay the specs of the active
ranges; a later truthy `tagName` wins, `style` values are joined with `;`,
`class` values with a space, other attributes overwrite. -/
def DecoratedRange.build (f t : Int) (ranges : List Decoration) : DecoratedRange :=
  let folded := ranges.foldl
    (fun (acc : Option String × Option (List (String × String))) r =>
      match r.spec with
      | .point _ => acc
      | .range spec =>
        let tagName := if strTruthy spec.tagName then spec.tagName else acc.1
        let attrs := match spec.attributes with
          | none => acc.2
          | some kvs => kvs.foldl
              (fun (aOpt : Option (List (String × String))) kv =>
                let a := aOpt.getD []
                let value :=
                  if kv.1 == "style" && strTruthy (lookupAttr a "style") then
                    (lookupAttr a "style").getD "" ++ ";" ++ kv.2
                  else if kv.1 == "class" && strTruthy (lookupAttr a "class") then
                    (lookupAttr a "class").getD "" ++ " " ++ kv.2
                  else kv.2
                some (setAttr a kv.1 value))
              acc.2
        (tagName, attrs))
    (none, none)
  ⟨f, t, folded.1, folded.2⟩

/-- `addIterToHeap(heap, iter, skip)`: keep pulling cursors from the iterator
until one carries the back-pointer (a terminal leaf cursor) or the iterator is
exhausted.  Each pull passes the same original `skip`. -/
def addIterToHeap : Nat → List SpanItem → List IteratedSet → Int →
    Option (List SpanItem)
  | 0, _, _, _ => none
  | fuel + 1, heap, stack, skip =>
    match iterNext fuel skip stack with
    | none => none
    | some (none, _) => some heap
    | some (some ls, stack') =>
      let heap' := addToHeap heap (.localSet ls)
      if ls.next.isSome then some heap'
      else addIterToHeap fuel heap' stack' skip

/-- After popping a `LocalSet` cursor and advancing its index, either reinsert
it (when decorations remain) or re-seed the heap from its back-pointer. -/
def cursorFollowUp (fuel : Nat) (heap : List SpanItem) (ls' : LocalSet) :
    Option (List SpanItem) :=
  if ls'.index < ls'.decorations.length then some (addToHeap heap (SpanItem.localSet ls'))
  else match ls'.next with
       | some st => addIterToHeap fuel heap st 0
       | none => some heap

/-- The main loop of `decoratedSpansInRange`: pop heap items, open and close
active ranges, and emit a `DecoratedRange` every time `pos` advances.  Returns
the emitted ranges together with the final `pos` and `active` list. -/
def spansLoop (fromP toP : Int) : Nat → List SpanItem → List Decoration → Int →
    List DecoratedRange → Option (List DecoratedRange × Int × List Decoration)
  | 0, _, _, _, _ => none
  | fuel + 1, heap, active, pos, result =>
    match takeFromHeap heap with
    | none => some (result, pos, active)
    | some (next, heap1) =>
      match next with
      | .localSet ls =>
        let deco := ls.decorations.getD ls.index default
        let ls' : LocalSet := ⟨ls.offset, ls.decorations, ls.index + 1, ls.next⟩
        match cursorFollowUp fuel heap1 ls' with
        | none => none
        | some heap2 =>
          if deco.toPos + ls.offset < fromP then
            spansLoop fromP toP fuel heap2 active pos result
          else if deco.fromPos + ls.offset > toP then some (result, pos, active)
          else match deco.desc with
            | .pointDesc _ => spansLoop fromP toP fuel heap2 active pos result
            | .rangeDesc _ =>
              if !deco.desc.affectsSpans then
                spansLoop fromP toP fuel heap2 active pos result
              else
                let deco' := deco.move ls.offset
                if deco'.fromPos > pos then
                  spansLoop fromP toP fuel (addToHeap heap2 (SpanItem.deco deco'))
                    (active ++ [deco']) deco'.fromPos
                    (result ++ [DecoratedRange.build pos deco'.fromPos active])
                else
                  spansLoop fromP toP fuel (addToHeap heap2 (SpanItem.deco deco'))
                    (active ++ [deco']) pos result
      | .deco deco =>
        if deco.toPos ≥ toP then some (result, pos, active)
        else
          if deco.toPos > pos then
            spansLoop fromP toP fuel heap1 (active.erase deco) deco.toPos
              (result ++ [DecoratedRange.build pos deco.toPos active])
          else spansLoop fromP toP fuel heap1 (active.erase deco) pos result

/-- `decoratedSpansInRange(sets, from, to)`: seed the heap from each nonempty
set's iterator (skipping past `from`), run the loop, and emit a final range if
`pos` has not reached `to`. -/
def decoratedSpansInRange (fuel : Nat) (sets : List DecorationSet) (fromP toP : Int) :
    Option (List DecoratedRange) :=
  match seed fuel sets [] with
  | none => none
  | some heap =>
    match spansLoop fromP toP fuel heap [] fromP [] with
    | none => none
    | some (result, pos, active) =>
      some (if pos < toP then result ++ [DecoratedRange.build pos toP active] else result)
where seed (fuel : Nat) : List DecorationSet → List SpanItem → Option (List SpanItem)
  | [], heap => some heap
  | s :: rest, heap =>
    if s.size > 0 then
      match addIterToHeap fuel heap (iterStart s 0) fromP with
      | none => none
      | some heap' => seed fuel rest heap'
    else seed fuel rest heap

/-! ### Decidable invariant checkers (spec section 8) and other test predicates -/

/-- Invariant P1: `size == local.length + sum(child.size)` at every node.
Fuelled on the depth; `false` on exhaustion. -/
def sizeInvCheck : Nat → DecorationSet → Bool
  | 0, _ => false
  | fuel + 1, .node _ size locals children =>
    (size == locals.length + (children.map DecorationSet.size).sum) &&
    children.all (fun c => sizeInvCheck fuel c)

/-- Invariant P3: every local decoration satisfies `0 ≤ from ≤ to ≤ length`,
at every node. -/
def localBoundsCheck : Nat → DecorationSet → Bool
  | 0, _ => false
  | fuel + 1, .node length _ locals children =>
    locals.all (fun d =>
      decide (0 ≤ d.fromPos) && decide (d.fromPos ≤ d.toPos) && decide (d.toPos ≤ length)) &&
    children.all (fun c => localBoundsCheck fuel c)

/-- Invariant P2: the local list is sorted by `byPos`. -/
def localsSorted : List Decoration → Bool
  | [] => true
  | [_] => true
  | a :: b :: rest => decide (byPos a b ≤ 0) && localsSorted (b :: rest)

/-- Invariant P5: ranges have `from < to`, points `from == to`. -/
def wellFormedDeco (d : Decoration) : Bool :=
  match d.desc with
  | .rangeDesc _ => decide (d.fromPos < d.toPos)
  | .pointDesc _ => d.fromPos == d.toPos

/-- All structural invariants P1 to P5 of spec section 8 together
(children carry nonnegative lengths summing to at most the node length). -/
def invariantsCheck : Nat → DecorationSet → Bool
  | 0, _ => false
  | fuel + 1, .node length size locals children =>
    (size == locals.length + (children.map DecorationSet.size).sum) &&
    localsSorted locals &&
    locals.all (fun d =>
      decide (0 ≤ d.fromPos) && decide (d.fromPos ≤ d.toPos) && decide (d.toPos ≤ length) &&
      wellFormedDeco d) &&
    children.all (fun c => decide (0 ≤ c.length)) &&
    decide ((children.map DecorationSet.length).sum ≤ length) &&
    children.all (fun c => invariantsCheck fuel c)

/-- The output of `decoratedSpansInRange` concatenates to exactly `[fromP, toP]`:
the first range starts at `fromP`, each range is nonempty and ends where the
next begins, and the last ends at `toP` (an empty list is the degenerate cover
of `[fromP, fromP]`). -/
def covers (fromP toP : Int) : List DecoratedRange → Bool
  | [] => fromP == toP
  | r :: rs => (r.fromPos == fromP) && decide (r.fromPos < r.toPos) && covers r.toPos toP rs

/-- Whether a list of integers is nondecreasing. -/
def nondecreasing : List Int → Bool
  | [] => true
  | [_] => true
  | a :: b :: rest => decide (a ≤ b) && nondecreasing (b :: rest)

/-- Number of decorations in a list with the given endpoints. -/
def countAt (l : List Decoration) (f t : Int) : Nat :=
  (l.filter (fun d => decide (d.fromPos = f) && decide (d.toPos = t))).length

/-! ### Concrete inputs used by the counterexamples and witnesses -/

/-- A plain range decoration with the default (all-absent) spec. -/
def mkRange (f t : Int) : Decoration := ⟨f, t, .rangeDesc {}⟩

/-- A small leaf node holding the given decorations. -/
def mkLeaf (length : Int) (ds : List Decoration) : DecorationSet :=
  .node length ds.length ds []

/-- 33 disjoint ranges `(10*i, 10*i+5)`; `empty.update` splits them into two
children of sizes 32 and 1. -/
def xs33 : List Decoration := (List.range 33).map (fun i => mkRange (i * 10) (i * 10 + 5))

/-- A filter dropping everything inside its window. -/
def dropAllFilter : DecorationFilter := fun _ _ _ => false

/-- The `heapPos` values of the heap counterexample: pushing points at these
positions and popping everything yields a non-sorted sequence. -/
def c2list : List Int := [0, 0, 1, 0, 1, 1, 0, 1, 1, 1]

/-- The heap items themselves (point decorations, all with bias 0). -/
def c2items : List Decoration := c2list.map (fun v => Decoration.point v {})

/-- The 1088-decoration batch on which `empty.update` shifts a decoration:
32 chunks of 34; the first two chunks keep 2 decorations each (the rest escape
to the root), the third keeps 33, the fourth keeps 1, the fifth keeps 33, the
sixth keeps 33 plus the escapee `(533, 650)`, and 26 full filler chunks follow. -/
def c3xs : List Decoration :=
  ([mkRange 0 50, mkRange 1 51] ++ (List.range 32).map (fun j => mkRange (2 + j) 9000)) ++
  ([mkRange 100 150, mkRange 101 151] ++
    (List.range 32).map (fun j => mkRange (102 + j) 9000)) ++
  ((List.range 33).map (fun j => mkRange (200 + j) (202 + j)) ++ [mkRange 233 9000]) ++
  ([mkRange 300 310] ++ (List.range 33).map (fun j => mkRange (301 + j) 9000)) ++
  ((List.range 33).map (fun j => mkRange (400 + j) (402 + j)) ++ [mkRange 433 9000]) ++
  ((List.range 33).map (fun j => mkRange (500 + j) (501 + j)) ++ [mkRange 533 650]) ++
  ((List.range 26).flatMap (fun k =>
    (List.range 34).map (fun j => mkRange (600 + 100 * k + j) (600 + 100 * k + j + 1))))

/-- A hand-built set satisfying all structural invariants, used against the
size invariant: two small two-level children, a filler leaf, one big child, and
one root-local decoration spanning the first two children. -/
def c4small : DecorationSet :=
  .node 100 5 [] [mkLeaf 50 [mkRange 1 2, mkRange 5 6, mkRange 10 11],
    mkLeaf 50 [mkRange 3 4, mkRange 20 21]]

def c4filler : DecorationSet :=
  mkLeaf 100 ((List.range 30).map (fun j => mkRange (j * 3) (j * 3 + 1)))

def c4big : DecorationSet :=
  .node 400 70 ((List.range 10).map (fun i => mkRange (i * 2) (i * 2 + 1)))
    [mkLeaf 133 ((List.range 20).map (fun j => mkRange (j * 3) (j * 3 + 1))),
     mkLeaf 133 ((List.range 20).map (fun j => mkRange (j * 3) (j * 3 + 1))),
     mkLeaf 134 ((List.range 20).map (fun j => mkRange (j * 3) (j * 3 + 1)))]

def c4root : DecorationSet :=
  .node 700 111 [mkRange 10 150] [c4small, c4small, c4filler, c4big]

/-- The filter of the size-invariant counterexample: drop only `(1, 2)`. -/
def c4filter : DecorationFilter := fun f t _ => !(decide (f = 1) && decide (t = 2))

/-- Two leaf children of length 5 under a root of length 10, each holding one
decoration; used against the iterator-skip claim with `skip = 5`. -/
def c8root : DecorationSet :=
  .node 10 2 [] [mkLeaf 5 [mkRange 1 3], mkLeaf 5 [mkRange 2 4]]

/-- What the iterator-skip claim amends to, for a node with leaf children: walk
the children keeping a running `skip`; a child with `length < skip` is bypassed
(reducing `skip`), and the first child with `length ≥ skip` is the one whose
cursor is yielded, at its own start offset.  Written from the spec's corrected
wording, to be compared with `iterNext`. -/
def firstNonBypassed (skip : Int) : List DecorationSet → Option (Int × DecorationSet)
  | [] => none
  | c :: rest =>
    if skip > c.length then
      (firstNonBypassed (skip - c.length) rest).map (fun p => (p.1 + c.length, p.2))
    else some (0, c)

/-- A single range with a class attribute, and the spans it produces on
`[0, 10]`; used as the witness input of the coverage theorem. -/
def c1set : DecorationSet := .node 5 1 [⟨2, 5, .rangeDesc { attributes := some [("class", "a")] }⟩] []

def c1out : List DecoratedRange :=
  [⟨0, 2, none, none⟩, ⟨2, 5, none, some [("class", "a")]⟩, ⟨5, 10, none, none⟩]

/-! ### Theorems -/

/-- C9: `Decoration.range(from, to, spec)` fails with the invalid-argument
range error exactly when `from ≥ to`, and otherwise returns the decoration
with exactly those endpoints; `Decoration.point(pos, spec)` always succeeds,
for every integer position. -/
theorem decoration_range_point_failure :
    (∀ f t spec, (f ≥ t →
        Decoration.range f t spec = .error "Range decorations may not be empty") ∧
      (f < t → Decoration.range f t spec = .ok ⟨f, t, .rangeDesc spec⟩)) ∧
    (∀ pos spec, Decoration.point pos spec = ⟨pos, pos, .pointDesc spec⟩) := by
  refine ⟨fun f t spec => ⟨fun h => ?_, fun h => ?_⟩, fun pos spec => rfl⟩
  · unfold Decoration.range
    rw [if_pos h]
  · unfold Decoration.range
    rw [if_neg (not_le.mpr h)]

/-- Witness for the range/point failure theorem at concrete inputs. -/
theorem decoration_range_point_failure_witness :
    Decoration.range 3 3 {} = .error "Range decorations may not be empty" ∧
    Decoration.range 2 5 {} = .ok ⟨2, 5, .rangeDesc {}⟩ :=
  ⟨(decoration_range_point_failure.1 3 3 {}).1 (by norm_num),
   (decoration_range_point_failure.1 2 5 {}).2 (by norm_num)⟩

/-- C10: `DecorationSet.of` applied to an empty array returns the
`DecorationSet.empty` sentinel itself (length 0, size 0, no locals, no
children), without calling `update`. -/
theorem of_empty_array_is_empty :
    ∀ fuel, DecorationSet.of fuel [] = some DecorationSet.empty :=
  fun _ => rfl

/-- C7: mapping a range decoration yields exactly the decoration with endpoints
`mapPos(from, cs, bias)` and `mapPos(to, cs, endBias)` when the mapped start is
strictly below the mapped end, and `null` otherwise; mapping a point decoration
always yields a decoration (never null) whose start equals its end. -/
theorem decoration_map_characterization :
    (∀ f t spec (cs : List Change),
      (Decoration.mk f t (.rangeDesc spec)).map cs =
        (if mapPos f cs (DecorationDesc.rangeDesc spec).bias <
            mapPos t cs (DecorationDesc.rangeDesc spec).endBias then
          some ⟨mapPos f cs (DecorationDesc.rangeDesc spec).bias,
            mapPos t cs (DecorationDesc.rangeDesc spec).endBias, .rangeDesc spec⟩
        else none)) ∧
    (∀ f t spec (cs : List Change),
      (Decoration.mk f t (.pointDesc spec)).map cs =
        some ⟨mapPos f cs (DecorationDesc.pointDesc spec).bias,
          mapPos f cs (DecorationDesc.pointDesc spec).bias, .pointDesc spec⟩) :=
  ⟨fun _ _ _ _ => rfl, fun _ _ _ _ => rfl⟩

/-- C2 refuted: pushing points with heap positions 0,0,1,0,1,1,0,1,1,1 onto an
empty heap and then popping everything returns a 0 after a 1 has already been
popped (the fifth pop), so `takeFromHeap` does not always return a minimal
element of the heap: the sift-up of `addToHeap` computes the parent of slot `i`
as `i >> 1` although children live at `2*i+1` and `2*i+2`. -/
theorem heap_pop_not_minimal :
    (popAll 20 (pushAll ([] : List Decoration) c2items)).map Decoration.heapPos =
      [0, 0, 0, 1, 0, 1, 1, 1, 1, 1] ∧
    nondecreasing
      ((popAll 20 (pushAll ([] : List Decoration) c2items)).map Decoration.heapPos) = false := by
  constructor
  · decide
  · decide

/-- C4 refuted: `c4root` satisfies every structural invariant, yet
`update([], c4filter, 0, 5)` produces a root whose stored size is 110 while the
tree holds only 100 decorations, so `size == local.length + sum(child.size)`
fails: a wrapper join empties the local array (which the source then rebinds to
the shared `noDecorations`), and a later unwrap inserts ten decorations into
that detached array, losing them. -/
theorem update_breaks_size_invariant :
    invariantsCheck 10 c4root = true ∧
    (update 100 c4root [] (some c4filter) 0 5).map
      (fun r => (sizeInvCheck 10 r, r.size, (r.collect 10 0).length)) =
      some (false, 110, 100) := by
  constructor
  · decide!
  · decide!

/-- C5 refuted: `empty.update(xs33)` satisfies the invariants, but filtering it
with a window `[0, 15]` collapses the two children into a leaf in which the
decorations of the second child sit at negative offsets (`collapseSet` collects
child contents translated by `-off` instead of `off`), so
`0 ≤ from ≤ to ≤ length` fails on the result. -/
theorem update_breaks_local_bounds :
    ((do
      let s ← update 100 DecorationSet.empty xs33 none 0 0
      pure (invariantsCheck 10 s,
        (update 100 s [] (some dropAllFilter) 0 15).map (localBoundsCheck 10))) :
      Option (Bool × Option Bool)) = some (true, some false) := by
  decide!

/-- C6 refuted: in `empty.update(xs33)` the decoration `(320, 325)` lies in the
second child; updating with a filter windowed to `[0, 15]` never calls the
filter on it and must preserve it, yet the result no longer contains
`(320, 325)` — it holds `(-320, -315)` instead, shifted by the leaf-collapse
sign error. -/
theorem filter_update_not_preserving_outside :
    countAt xs33 320 325 = 1 ∧
    ((do
      let s ← update 100 DecorationSet.empty xs33 none 0 0
      let s2 ← update 100 s [] (some dropAllFilter) 0 15
      pure (countAt (s2.collect 10 0) 320 325, countAt (s2.collect 10 0) (-320) (-315))) :
      Option (Nat × Nat)) = some (0, 1) := by
  constructor
  · decide
  · decide!

/-- C3 refuted: `empty.update(c3xs)` does not return the multiset of `c3xs`:
the decoration `(533, 650)` is present once in the input and absent from the
result, which instead holds `(333, 450)` — the rebalance loop re-examines a
joined leaf pair without resetting its running offset, and a later wrapper join
captures the root-local decoration `(533, 650)` through that drifted offset,
re-homing it 200 positions too low. -/
theorem update_loses_decoration :
    (countAt c3xs 533 650, countAt c3xs 333 450) = (1, 0) ∧
    (update 2000 DecorationSet.empty c3xs none 0 0).map
      (fun s => (countAt (s.collect 100 0) 533 650, countAt (s.collect 100 0) 333 450,
        (s.collect 100 0).length)) = some (0, 1, 1088) := by
  constructor
  · decide!
  · decide!

/-- Moving a decoration shifts its start by the offset. -/
theorem move_fromPos (d : Decoration) (o : Int) : (d.move o).fromPos = d.fromPos + o := by
  unfold Decoration.move
  split
  · simp [*]
  · rfl

/-- Moving a decoration shifts its end by the offset. -/
theorem move_toPos (d : Decoration) (o : Int) : (d.move o).toPos = d.toPos + o := by
  unfold Decoration.move
  split
  · simp [*]
  · rfl

/-- Appending a nonempty range that starts at the current end extends a cover. -/
theorem covers_append : ∀ (rs : List DecoratedRange) (f p q : Int) (r : DecoratedRange),
    covers f p rs = true → r.fromPos = p → r.toPos = q → p < q →
    covers f q (rs ++ [r]) = true := by
  intro rs
  induction rs with
  | nil =>
    intro f p q r h hf ht hlt
    simp only [covers, beq_iff_eq] at h
    subst h
    simp [covers, hf, ht, hlt]
  | cons x rs ih =>
    intro f p q r h hf ht hlt
    simp only [covers, Bool.and_eq_true] at h
    simp only [List.cons_append, covers, Bool.and_eq_true]
    exact ⟨h.1, ih _ _ _ _ h.2 hf ht hlt⟩

/-- Invariant of the spans-builder loop: if the ranges emitted so far cover
exactly `[fromP, pos]` and `pos ≤ toP`, then whatever state the loop exits in
still covers `[fromP, pos']` with `pos' ≤ toP`. -/
theorem spansLoop_covers (fromP toP : Int) :
    ∀ (fuel : Nat) (heap : List SpanItem) (active : List Decoration) (pos : Int)
      (result : List DecoratedRange) (out : List DecoratedRange × Int × List Decoration),
      covers fromP pos result = true → pos ≤ toP →
      spansLoop fromP toP fuel heap active pos result = some out →
      covers fromP out.2.1 out.1 = true ∧ out.2.1 ≤ toP := by
  intro fuel
  induction fuel with
  | zero =>
    intro heap active pos result out h1 h2 h3
    exact absurd h3 (by simp [spansLoop])
  | succ fuel ih =>
    intro heap active pos result out h1 h2 h3
    rw [spansLoop] at h3
    split at h3
    · -- the heap is empty: the loop exits with the current state
      injection h3 with h4
      subst h4
      exact ⟨h1, h2⟩
    · split at h3
      · -- a LocalSet cursor was popped
        dsimp only at h3
        split at h3
        · exact absurd h3 (by simp)
        · split at h3
          · exact ih _ _ _ _ _ h1 h2 h3
          · split at h3
            · injection h3 with h4
              subst h4
              exact ⟨h1, h2⟩
            · rename_i hnb
              split at h3
              · exact ih _ _ _ _ _ h1 h2 h3
              · split at h3
                · exact ih _ _ _ _ _ h1 h2 h3
                · split at h3
                  · rename_i hgt
                    refine ih _ _ _ _ _ ?_ ?_ h3
                    · exact covers_append _ _ _ _ _ h1 rfl rfl hgt
                    · rw [move_fromPos] at hgt ⊢
                      omega
                  · exact ih _ _ _ _ _ h1 h2 h3
      · -- an ending decoration was popped
        split at h3
        · injection h3 with h4
          subst h4
          exact ⟨h1, h2⟩
        · rename_i hlt
          split at h3
          · rename_i hgt
            refine ih _ _ _ _ _ ?_ ?_ h3
            · exact covers_append _ _ _ _ _ h1 rfl rfl hgt
            · omega
          · exact ih _ _ _ _ _ h1 h2 h3

/-- C1: for every list of decoration sets and all `from ≤ to`, whenever
`decoratedSpansInRange(sets, from, to)` terminates it returns a sequence of
`DecoratedRange` values whose concatenated coverage is exactly `[from, to]`
with no gaps and no overlaps: the first range starts at `from`, each range's
`to` equals the next range's `from`, and the last range ends at `to` (for
`from = to` the sequence is empty).  In particular this covers
`decoratedSpansInRange([set], 0, set.length)` on `[0, set.length]`. -/
theorem spans_cover_range (fuel : Nat) (sets : List DecorationSet) (fromP toP : Int)
    (res : List DecoratedRange) (hle : fromP ≤ toP)
    (h : decoratedSpansInRange fuel sets fromP toP = some res) :
    covers fromP toP res = true := by
  unfold decoratedSpansInRange at h
  split at h
  · exact absurd h (by simp)
  · rename_i heap hseed
    split at h
    · exact absurd h (by simp)
    · rename_i result pos active hloop
      obtain ⟨hc, hp⟩ := spansLoop_covers fromP toP fuel heap [] fromP [] (result, pos, active)
        (by simp [covers]) hle hloop
      injection h with h4
      subst h4
      by_cases hlt : pos < toP
      · rw [if_pos hlt]
        exact covers_append _ _ _ _ _ hc rfl rfl hlt
      · rw [if_neg hlt]
        have heq : pos = toP := le_antisymm hp (not_lt.mp hlt)
        rw [heq] at hc
        exact hc

/-- Witness: the coverage theorem applied to a one-range set on `[0, 10]`. -/
theorem spans_cover_range_witness : covers 0 10 c1out = true :=
  spans_cover_range 100 [c1set] 0 10 c1out (by norm_num) (by decide)

/-- C8 refuted: on `c8root` the first child has length 5 ≤ skip = 5, yet
`next(5)` does not bypass it: it descends into the child and yields the cursor
over that child's decorations. -/
theorem iterator_skip_boundary_descends :
    (c8root.children.getD 0 DecorationSet.empty).length ≤ 5 ∧
    (iterNext 10 5 (iterStart c8root 0)).map
      (fun r => r.1.map (fun ls => (ls.offset, ls.decorations))) =
      some (some (0, [mkRange 1 3])) := by
  constructor
  · decide
  · decide

/-- The walking lemma for the iterator: starting from a root frame whose index
points at the remaining children `rem` (all leaves holding decorations), one
`next(skip)` call yields the cursor of the first child of `rem` whose length
reaches the running skip, at that child's own start offset. -/
theorem iterNext_walk (len : Int) (sz : Nat) (loc0 : List Decoration) (cs : List DecorationSet) :
    ∀ (rem : List DecorationSet) (n : Nat) (off skip : Int) (fuel : Nat),
      cs.drop n = rem → n ≤ cs.length →
      (∀ c ∈ rem, c.children.length = 0 ∧ c.locals.length ≠ 0) →
      rem.length + 2 ≤ fuel →
      (iterNext fuel skip [⟨off, (n : Int), .node len sz loc0 cs⟩]).map
        (fun r => r.1.map (fun ls => (ls.offset, ls.decorations))) =
      some ((firstNonBypassed skip rem).map (fun p => (off + p.1, p.2.locals))) := by
  intro rem
  induction rem with
  | nil =>
    intro n off skip fuel hdrop hn hleaf hfuel
    have hlen : n = cs.length := by
      have := List.drop_eq_nil_iff.mp hdrop
      omega
    obtain ⟨f, rfl⟩ : ∃ f, fuel = f + 2 := ⟨fuel - 2, by omega⟩
    rw [iterNext]
    dsimp only [DecorationSet.children, DecorationSet.locals]
    rw [if_neg (by omega), if_pos (by rw [hlen])]
    rw [iterNext]
    simp [firstNonBypassed]
  | cons c rest ih =>
    intro n off skip fuel hdrop hn hleaf hfuel
    obtain ⟨clen, csz, cloc, cch⟩ := c
    have hnlt : n < cs.length := by
      by_contra hge
      have hnil : cs.drop n = [] := List.drop_eq_nil_iff.mpr (by omega)
      rw [hnil] at hdrop
      exact List.cons_ne_nil _ rest hdrop.symm
    have hget : cs.getD n DecorationSet.empty = .node clen csz cloc cch := by
      have h0 : cs[n]? = some (.node clen csz cloc cch) := by
        have h1 := List.getElem?_drop cs n 0
        rw [hdrop] at h1
        simpa using h1.symm
      simp [List.getD, h0]
    have hdrop1 : cs.drop (n + 1) = rest := by
      have h2 : cs.drop (n + 1) = (cs.drop n).drop 1 := by
        rw [List.drop_drop]
      rw [h2, hdrop]
      rfl
    obtain ⟨f, rfl⟩ : ∃ f, fuel = f + 1 := ⟨fuel - 1, by omega⟩
    rw [iterNext]
    dsimp only [DecorationSet.children, DecorationSet.locals, DecorationSet.length]
    rw [if_neg (by omega), if_neg (by omega)]
    rw [show ((n : Int)).toNat = n from by simp]
    rw [hget]
    dsimp only [DecorationSet.children, DecorationSet.locals, DecorationSet.length]
    by_cases hskip : skip > clen
    · rw [if_pos hskip]
      rw [show ((n : Int) + 1) = ((n + 1 : Nat) : Int) from by push_cast; ring]
      rw [ih (n + 1) (off + clen) (skip - clen) f hdrop1 (by omega)
        (fun x hx => hleaf x (List.mem_cons_of_mem _ hx))
        (by simp only [List.length_cons] at hfuel; omega)]
      rw [show firstNonBypassed skip (DecorationSet.node clen csz cloc cch :: rest) =
          (firstNonBypassed (skip - clen) rest).map (fun p => (p.1 + clen, p.2)) from by
        rw [firstNonBypassed]
        dsimp only [DecorationSet.length]
        rw [if_pos hskip]]
      cases firstNonBypassed (skip - clen) rest with
      | none => simp
      | some p =>
        obtain ⟨p1, p2⟩ := p
        cases p2
        simp [Function.comp]
        ring_nf
        exact ⟨trivial, rfl⟩
    · rw [if_neg hskip]
      obtain ⟨g, rfl⟩ : ∃ g, f = g + 1 :=
        ⟨f - 1, by simp only [List.length_cons] at hfuel; omega⟩
      rw [iterNext]
      dsimp only [DecorationSet.children, DecorationSet.locals, DecorationSet.length]
      rw [if_pos (by norm_num)]
      have hpos : cloc.length > 0 := by
        have := (hleaf _ (List.mem_cons_self _ rest)).2
        dsimp only [DecorationSet.locals] at this
        omega
      rw [if_pos hpos]
      rw [show firstNonBypassed skip (DecorationSet.node clen csz cloc cch :: rest) =
          some (0, .node clen csz cloc cch) from by
        rw [firstNonBypassed]
        dsimp only [DecorationSet.length]
        rw [if_neg hskip]]
      simp

/-- C8 amended: in `DecorationSetIterator.next(skip)` a child subtree is
bypassed entirely exactly when its length is strictly less than the remaining
skip (the skip reduced by the lengths of the already bypassed children); a
child whose length equals the remaining skip is descended into and its
decorations are yielded.  Stated for a fresh iterator over a node whose
children are leaves holding decorations: the call yields precisely the cursor
of the first child whose length reaches the running skip (`firstNonBypassed`),
and `none` when every child is bypassed. -/
theorem iterator_skip_strict (cs : List DecorationSet) (len : Int) (sz : Nat)
    (offset skip : Int) (fuel : Nat)
    (hleaf : ∀ c ∈ cs, c.children.length = 0 ∧ c.locals.length ≠ 0)
    (hfuel : cs.length + 3 ≤ fuel) :
    (iterNext fuel skip (iterStart (.node len sz [] cs) offset)).map
      (fun r => r.1.map (fun ls => (ls.offset, ls.decorations))) =
      some ((firstNonBypassed skip cs).map (fun p => (offset + p.1, p.2.locals))) := by
  obtain ⟨f, rfl⟩ : ∃ f, fuel = f + 1 := ⟨fuel - 1, by omega⟩
  rw [iterStart, iterNext]
  dsimp only [DecorationSet.children, DecorationSet.locals]
  rw [if_pos (by norm_num), if_neg (by norm_num)]
  have hw := iterNext_walk len sz [] cs cs 0 offset skip f (by simp) (by omega) hleaf
    (by omega)
  simpa using hw

/-- Witness: the amended skip theorem at a concrete two-leaf node with
`skip = 7`: the first child (length 5 < 7) is bypassed, the second yields. -/
theorem iterator_skip_strict_witness :
    (iterNext 10 7 (iterStart (.node 10 2 [] [mkLeaf 5 [mkRange 1 3], mkLeaf 5 [mkRange 2 4]]) 0)).map
      (fun r => r.1.map (fun ls => (ls.offset, ls.decorations))) =
      some (some (5, [mkRange 2 4])) := by
  rw [iterator_skip_strict [mkLeaf 5 [mkRange 1 3], mkLeaf 5 [mkRange 2 4]] 10 2 0 7 10
    (by decide) (by decide)]
  decide

end DecoView
